import Mathlib

/-!
Shallow embedding of the dorsz repository's two core data components:

* `InMemorySession` (src/local_agents/in_memory_session.py): a sliding-window
  conversation history with capacity `max_items`, operations `get_items`
  (read_window) and `add_items` (append).
* `TopicList` (src/tools/topics_registry.py): an append-only registry of
  `TopicItem`s with operations `add`, `mark_answered`,
  `next_unanswered_index` / `next_unanswered_topic` and `summary_lines`.

Python integers are modelled as `Int`; Python list slicing `xs[k:]`
(including its negative-index semantics, and the `-0 == 0` quirk) is
modelled by `pySliceFrom`.
-/

namespace Dorsz

/-- Python slice `xs[k:]` for an arbitrary integer `k`:
for `k ≥ 0` it drops the first `k` elements; for `k < 0` it starts at
`max(len + k, 0)`.  Note `pySliceFrom xs (-0) = xs` (Python's `-0 == 0`). -/
def pySliceFrom {α : Type} (xs : List α) (k : Int) : List α :=
  if 0 ≤ k then xs.drop k.toNat
  else xs.drop ((xs.length + k).toNat)

/-- The last `n` elements of `xs` (all of `xs` when `n ≥ xs.length`). -/
def lastN {α : Type} (n : Nat) (xs : List α) : List α :=
  xs.drop (xs.length - n)

/-- State of `InMemorySession.__init__`: a session id, the capacity
`max_items` (a Python int, default 4) and the stored items.  The item type
`α` stands for `TResponseInputItem`, opaque to the session logic. -/
structure InMemorySession (α : Type) where
  session_id : String
  max_items : Int
  items : List α

/-- `InMemorySession.get_items` (the spec's `read_window`): returns `[]` on an
empty store; otherwise computes `effective_limit = min(limit, max_items)`
(or `max_items` when `limit` is `None`), returns the whole store when
`effective_limit >= len(items)`, and `items[-effective_limit:]` otherwise. -/
def get_items {α : Type} (s : InMemorySession α) (limit : Option Int) : List α :=
  if s.items.isEmpty then []
  else
    let effective_limit : Int :=
      match limit with
      | none => s.max_items
      | some l => min l s.max_items
    if (s.items.length : Int) ≤ effective_limit then s.items
    else pySliceFrom s.items (-effective_limit)

/-- `InMemorySession.add_items` (the spec's `append`): no-op on an empty
argument; otherwise extends the store and, when the length exceeds
`max_items`, keeps `items[-max_items:]`. -/
def add_items {α : Type} (s : InMemorySession α) (new : List α) :
    InMemorySession α :=
  if new.isEmpty then s
  else
    let items := s.items ++ new
    if s.max_items < (items.length : Int) then
      ⟨s.session_id, s.max_items, pySliceFrom items (-s.max_items)⟩
    else
      ⟨s.session_id, s.max_items, items⟩

/-- The spec's "effective limit": `min(limit, max_items)` when `limit` is
provided, else `max_items`. -/
def effLimit {α : Type} (s : InMemorySession α) (limit : Option Int) : Int :=
  match limit with
  | none => s.max_items
  | some l => min l s.max_items

/-- `TopicItem` (pydantic model): a description, an `asked` flag
(default `False`) and an optional `conclusion` (default `None`). -/
structure TopicItem where
  description : String
  asked : Bool
  conclusion : Option String
deriving DecidableEq, Repr

/-- The derived `answered` property: Python's `bool(self.conclusion)`,
i.e. `True` exactly when `conclusion` is a non-empty string. -/
def TopicItem.answered (it : TopicItem) : Bool :=
  match it.conclusion with
  | none => false
  | some s => !s.data.isEmpty

/-- `TopicList` state: the backing `items` list.  (The Python singleton
machinery is irrelevant to the operations' semantics; every operation acts
on the one shared state, modelled here by explicit state passing.) -/
structure TopicList where
  items : List TopicItem
deriving DecidableEq, Repr

/-- The initial (empty) registry created on first access. -/
def TopicList.empty : TopicList := ⟨[]⟩

/-- `TopicList.add`: appends a fresh item (`asked = False`,
`conclusion = None`) and returns `len(self.items) - 1`, paired with the
updated state. -/
def TopicList.add (tl : TopicList) (description : String) :
    Nat × TopicList :=
  let items := tl.items ++ [⟨description, false, none⟩]
  (items.length - 1, ⟨items⟩)

/-- Helper for the in-place mutation
`self.items[index].conclusion = conclusion; self.items[index].asked = True`:
rebuilds the list with the item at position `i` updated. -/
def markAt (xs : List TopicItem) (i : Nat) (c : String) : List TopicItem :=
  match xs, i with
  | [], _ => []
  | it :: rest, 0 => ⟨it.description, true, some c⟩ :: rest
  | it :: rest, n + 1 => it :: markAt rest n c

/-- `TopicList.mark_answered`: returns `False` (state unchanged) when
`index < 0 or index >= len(self.items)`; otherwise sets the item's
`conclusion` to the given string, sets `asked = True` and returns `True`. -/
def TopicList.mark_answered (tl : TopicList) (index : Int) (conclusion : String) :
    Bool × TopicList :=
  if index < 0 ∨ (tl.items.length : Int) ≤ index then (false, tl)
  else (true, ⟨markAt tl.items index.toNat conclusion⟩)

/-- The `for i, it in enumerate(self.items)` search of
`next_unanswered_index`: index of the first item with `answered` false. -/
def nextUnansweredAux : List TopicItem → Option Nat
  | [] => none
  | it :: rest =>
    if it.answered then (nextUnansweredAux rest).map (· + 1)
    else some 0

/-- `TopicList.next_unanswered_index`: the first index whose item is not
`answered`, or `None` when the list is empty or all items are answered. -/
def TopicList.next_unanswered_index (tl : TopicList) : Option Nat :=
  nextUnansweredAux tl.items

/-- The `next_unanswered_topic` tool wrapper: `-1` for `None`, the index
otherwise. -/
def next_unanswered_topic (tl : TopicList) : Int :=
  match tl.next_unanswered_index with
  | none => -1
  | some i => i

/-- One line of `TopicList.summary_lines` for item `it` at index `i`. -/
def summaryLine (i : Nat) (it : TopicItem) : String :=
  let status := if it.answered then "ANSWERED" else "OPEN"
  let askedTag := if it.asked then "asked" else "not-asked"
  let concl :=
    if it.answered then " | conclusion: " ++ it.conclusion.getD "" else ""
  "[" ++ toString i ++ "] " ++ status ++ " (" ++ askedTag ++ ") :: " ++
    it.description ++ concl

/-- `TopicList.summary_lines`: one formatted line per item, in index order.
A pure query: it reads the state and mutates nothing. -/
def TopicList.summary_lines (tl : TopicList) : List String :=
  (List.range tl.items.length).zipWith summaryLine tl.items

/-- The modelled registry operations (the four tool entry points). -/
inductive Op where
  | add (description : String)
  | mark (index : Int) (conclusion : String)
  | nextUnanswered
  | summary
deriving DecidableEq, Repr

/-- State transition of one operation on the shared registry.  `add` and
`mark` mutate; `next_unanswered_topic` and `get_topics_summary` are pure
queries and leave the state unchanged (as in the source, which only reads
`self.items` there). -/
def TopicList.apply (tl : TopicList) : Op → TopicList
  | Op.add d => (tl.add d).2
  | Op.mark i c => (tl.mark_answered i c).2
  | Op.nextUnanswered => tl
  | Op.summary => tl

/-- Running a sequence of operations from a state. -/
def runOps (tl : TopicList) (ops : List Op) : TopicList :=
  ops.foldl TopicList.apply tl

/-- A sequence of `add` calls, collecting the returned indices in call
order together with the final state. -/
def runAdds (tl : TopicList) : List String → List Nat × TopicList
  | [] => ([], tl)
  | d :: ds =>
    let r := tl.add d
    let rest := runAdds r.2 ds
    (r.1 :: rest.1, rest.2)

/-! ### Helper lemmas about slices -/

theorem length_lastN {α : Type} (n : Nat) (xs : List α) :
    (lastN n xs).length = min n xs.length := by
  simp [lastN]
  omega

theorem lastN_of_le {α : Type} {n : Nat} {xs : List α} (h : xs.length ≤ n) :
    lastN n xs = xs := by
  simp [lastN, Nat.sub_eq_zero_of_le h]

theorem pySliceFrom_neg {α : Type} (xs : List α) (k : Int) (hk : 1 ≤ k) :
    pySliceFrom xs (-k) = lastN k.toNat xs := by
  have h1 : ¬ (0 ≤ -k) := by omega
  have h2 : ((xs.length : Int) + -k).toNat = xs.length - k.toNat := by omega
  simp [pySliceFrom, lastN, h1, h2]

theorem get_items_def {α : Type} (s : InMemorySession α) (limit : Option Int) :
    get_items s limit =
      if s.items.isEmpty then []
      else if (s.items.length : Int) ≤ effLimit s limit then s.items
      else pySliceFrom s.items (-(effLimit s limit)) := by
  cases limit <;> rfl

/-! ### Claim C1: read_window / get_items -/

/-- C1 counterexample: the claim as stated fails at `limit = 0` on a
non-empty store.  With `max_items = 4` and stored items `[1, 2]`, the
effective limit is `min(0, 4) = 0 < 2`, so the claim demands the last `0`
items (the empty sequence), but the code's `items[-0:]` returns the whole
store `[1, 2]`. -/
theorem C1_counterexample :
    ¬ (∀ (s : InMemorySession Nat) (limit : Option Int),
        get_items s limit =
          if (s.items.length : Int) ≤ effLimit s limit then s.items
          else lastN (effLimit s limit).toNat s.items) := by
  intro h
  have hc := h ⟨"s", 4, [1, 2]⟩ (some 0)
  revert hc
  decide

/-- C1 (amended): for every session with positive capacity `max_items` and
every limit that is either absent or a positive integer, `get_items`
returns all stored items in original order when the effective limit
(`min(limit, max_items)`, or `max_items` when no limit is provided) is at
least the number of stored items, and exactly the last effective-limit
stored items (oldest-first) otherwise; on an empty store it returns the
empty sequence (covered by the first branch). -/
theorem C1_read_window {α : Type} (s : InMemorySession α) (limit : Option Int)
    (hmax : 1 ≤ s.max_items) (hlim : ∀ l, limit = some l → 1 ≤ l) :
    get_items s limit =
      if (s.items.length : Int) ≤ effLimit s limit then s.items
      else lastN (effLimit s limit).toNat s.items := by
  have heff : 1 ≤ effLimit s limit := by
    cases limit with
    | none => simpa [effLimit] using hmax
    | some l =>
      have hl := hlim l rfl
      simp only [effLimit, le_min_iff]
      exact ⟨hl, hmax⟩
  rw [get_items_def]
  by_cases he : s.items.isEmpty
  · rw [List.isEmpty_iff] at he
    rw [if_pos (by simp [he])]
    simp [he, lastN]
  · rw [if_neg he]
    by_cases hle : (s.items.length : Int) ≤ effLimit s limit
    · rw [if_pos hle, if_pos hle]
    · rw [if_neg hle, if_neg hle, pySliceFrom_neg _ _ heff]

/-- C1 witness: concrete instance with `max_items = 4`, store `[1, 2, 3]`
and `limit = 2`. -/
theorem C1_witness :
    get_items (⟨"s", 4, [1, 2, 3]⟩ : InMemorySession Nat) (some 2) =
      if (((⟨"s", 4, [1, 2, 3]⟩ : InMemorySession Nat).items.length : Int) ≤
          effLimit (⟨"s", 4, [1, 2, 3]⟩ : InMemorySession Nat) (some 2)) then
        (⟨"s", 4, [1, 2, 3]⟩ : InMemorySession Nat).items
      else
        lastN (effLimit (⟨"s", 4, [1, 2, 3]⟩ : InMemorySession Nat) (some 2)).toNat
          (⟨"s", 4, [1, 2, 3]⟩ : InMemorySession Nat).items :=
  C1_read_window ⟨"s", 4, [1, 2, 3]⟩ (some 2) (by decide)
    (fun l hl => by injection hl with h; omega)

/-! ### Claim C9: limit = 0 returns the whole store -/

/-- C9: on a non-empty store (with non-negative capacity, as in every
reachable session), `get_items` with `limit = 0` returns all stored items:
the effective limit is `min(0, max_items) = 0`, the tail-slice branch is
taken, and Python's `items[-0:]` is `items[0:]`, i.e. the full store. -/
theorem C9_limit_zero {α : Type} (s : InMemorySession α)
    (hne : s.items ≠ []) (hmax : 0 ≤ s.max_items) :
    get_items s (some 0) = s.items := by
  have he : ¬ s.items.isEmpty := by
    simpa [List.isEmpty_iff] using hne
  have heff : effLimit s (some 0) = 0 := by
    simpa [effLimit] using min_eq_left hmax
  rw [get_items_def, if_neg he, heff]
  by_cases hl : (s.items.length : Int) ≤ 0
  · rw [if_pos hl]
  · rw [if_neg hl]
    simp [pySliceFrom]

/-- C9 witness: store `[1, 2]` with capacity `4`. -/
theorem C9_witness :
    get_items (⟨"s", 4, [1, 2]⟩ : InMemorySession Nat) (some 0) = [1, 2] :=
  C9_limit_zero ⟨"s", 4, [1, 2]⟩ (by decide) (by decide)

/-! ### Claim C3: append / add_items -/

theorem add_items_items {α : Type} (s : InMemorySession α) (new : List α)
    (hmax : 1 ≤ s.max_items) (hinv : (s.items.length : Int) ≤ s.max_items) :
    (add_items s new).items = lastN s.max_items.toNat (s.items ++ new) := by
  unfold add_items
  by_cases hn : new.isEmpty
  · rw [List.isEmpty_iff] at hn
    rw [if_pos (by simp [hn])]
    rw [hn, List.append_nil]
    exact (lastN_of_le (by omega)).symm
  · rw [if_neg hn]
    by_cases hlt : s.max_items < ((s.items ++ new).length : Int)
    · rw [if_pos hlt]
      dsimp only
      exact pySliceFrom_neg _ _ hmax
    · rw [if_neg hlt]
      dsimp only
      exact (lastN_of_le (by omega)).symm

/-- C3: for positive capacity and a stored sequence within capacity (the
invariant of every reachable session), `add_items` makes the store the last
`max_items` elements of old-store ++ appended (the whole concatenation when
it fits), the resulting length never exceeds `max_items`, and appending the
empty list leaves the session unchanged. -/
theorem C3_add_items {α : Type} (s : InMemorySession α) (new : List α)
    (hmax : 1 ≤ s.max_items) (hinv : (s.items.length : Int) ≤ s.max_items) :
    (add_items s new).items = lastN s.max_items.toNat (s.items ++ new) ∧
    ((add_items s new).items.length : Int) ≤ s.max_items ∧
    (((s.items ++ new).length : Int) ≤ s.max_items →
      (add_items s new).items = s.items ++ new) ∧
    add_items s [] = s := by
  have hmain := add_items_items s new hmax hinv
  refine ⟨hmain, ?_, ?_, rfl⟩
  · rw [hmain]
    have := length_lastN s.max_items.toNat (s.items ++ new)
    omega
  · intro hfit
    rw [hmain]
    exact lastN_of_le (by omega)

/-- C3 witness: capacity `2`, store `[1, 2]`, appending `[3, 4, 5]`. -/
theorem C3_witness :
    (add_items (⟨"s", 2, [1, 2]⟩ : InMemorySession Nat) [3, 4, 5]).items =
        lastN ((2 : Int)).toNat ([1, 2] ++ [3, 4, 5]) ∧
    ((add_items (⟨"s", 2, [1, 2]⟩ : InMemorySession Nat) [3, 4, 5]).items.length : Int) ≤ 2 ∧
    ((([1, 2] ++ [3, 4, 5] : List Nat).length : Int) ≤ 2 →
      (add_items (⟨"s", 2, [1, 2]⟩ : InMemorySession Nat) [3, 4, 5]).items = [1, 2] ++ [3, 4, 5]) ∧
    add_items (⟨"s", 2, [1, 2]⟩ : InMemorySession Nat) [] = ⟨"s", 2, [1, 2]⟩ :=
  C3_add_items ⟨"s", 2, [1, 2]⟩ [3, 4, 5] (by decide) (by decide)

/-! ### Helper lemmas about the registry operations -/

theorem markAt_length (xs : List TopicItem) (i : Nat) (c : String) :
    (markAt xs i c).length = xs.length := by
  induction xs generalizing i with
  | nil => rfl
  | cons it rest ih =>
    cases i with
    | zero => rfl
    | succ n => simp [markAt, ih]

theorem markAt_get?_eq (xs : List TopicItem) (i : Nat) (c : String) :
    (markAt xs i c).get? i =
      (xs.get? i).map (fun it => ⟨it.description, true, some c⟩) := by
  induction xs generalizing i with
  | nil => rfl
  | cons it rest ih =>
    cases i with
    | zero => rfl
    | succ n => simpa [markAt] using ih n

theorem markAt_get?_ne (xs : List TopicItem) (i j : Nat) (c : String)
    (h : j ≠ i) : (markAt xs i c).get? j = xs.get? j := by
  induction xs generalizing i j with
  | nil => rfl
  | cons it rest ih =>
    cases i with
    | zero =>
      cases j with
      | zero => exact absurd rfl h
      | succ m => rfl
    | succ n =>
      cases j with
      | zero => rfl
      | succ m => simpa [markAt] using ih n m (fun hh => h (by rw [hh]))

theorem nextUnansweredAux_eq_none (xs : List TopicItem) :
    nextUnansweredAux xs = none ↔ ∀ it ∈ xs, it.answered = true := by
  induction xs with
  | nil => simp [nextUnansweredAux]
  | cons it rest ih =>
    by_cases h : it.answered
    · simp [nextUnansweredAux, h, ih, Option.map_eq_none']
    · simp [nextUnansweredAux, h]

theorem nextUnansweredAux_eq_some (xs : List TopicItem) (i : Nat) :
    nextUnansweredAux xs = some i ↔
      ((xs.get? i).map TopicItem.answered = some false ∧
       ∀ j, j < i → (xs.get? j).map TopicItem.answered = some true) := by
  induction xs generalizing i with
  | nil => simp [nextUnansweredAux]
  | cons it rest ih =>
    by_cases h : it.answered
    · have hstep : nextUnansweredAux (it :: rest) = (nextUnansweredAux rest).map (· + 1) := by
        simp [nextUnansweredAux, h]
      cases i with
      | zero =>
        rw [hstep]
        simp [Option.map_eq_some', h]
      | succ n =>
        rw [hstep]
        constructor
        · intro hm
          obtain ⟨a, ha, hae⟩ := Option.map_eq_some'.mp hm
          have han : a = n := by omega
          rw [han] at ha
          obtain ⟨h1, h2⟩ := (ih n).mp ha
          refine ⟨by simpa using h1, ?_⟩
          intro j hj
          cases j with
          | zero => simpa using h
          | succ m => simpa using h2 m (by omega)
        · intro hr
          obtain ⟨h1, h2⟩ := hr
          have hrest : nextUnansweredAux rest = some n :=
            (ih n).mpr ⟨by simpa using h1,
              fun m hm => by simpa using h2 (m + 1) (by omega)⟩
          simp [hrest]
    · cases i with
      | zero => simp [nextUnansweredAux, h]
      | succ n =>
        constructor
        · intro hm
          simp [nextUnansweredAux, h] at hm
        · intro hr
          have := hr.2 0 (by omega)
          simp [h] at this

/-! ### Claim C2: mark_answered on a valid index -/

/-- C2 counterexample: the claim as stated fails for the empty-string
conclusion.  On a one-item registry, `mark_answered 0 ""` returns `true`
but the item's derived `answered` property is `bool("") = false`, not
`true`. -/
theorem C2_counterexample :
    ¬ (∀ (tl : TopicList) (i : Int) (c : String),
        0 ≤ i → i < (tl.items.length : Int) →
        ((tl.mark_answered i c).1 = true ∧
         ((tl.mark_answered i c).2.items.get? i.toNat).map TopicItem.answered =
           some true)) := by
  intro h
  have hc := (h ⟨[⟨"d", false, none⟩]⟩ 0 "" (by decide) (by decide)).2
  revert hc
  decide

/-- C2 (amended): for every in-range index and every NON-EMPTY string `c`,
`mark_answered i c` returns `true`, sets the item's `conclusion` to `c` and
its `asked` flag to `true`, after which the derived `answered` property is
`true`; the sequence length is unchanged.  (For the empty string everything
holds except `answered`, which stays `false` — see C10.) -/
theorem C2_mark_answered (tl : TopicList) (i : Int) (c : String)
    (h0 : 0 ≤ i) (hlen : i < (tl.items.length : Int)) (hc : c.data ≠ []) :
    (tl.mark_answered i c).1 = true ∧
    ((tl.mark_answered i c).2.items.get? i.toNat).map TopicItem.conclusion =
      some (some c) ∧
    ((tl.mark_answered i c).2.items.get? i.toNat).map TopicItem.asked =
      some true ∧
    ((tl.mark_answered i c).2.items.get? i.toNat).map TopicItem.answered =
      some true ∧
    (tl.mark_answered i c).2.items.length = tl.items.length := by
  have hguard : ¬ (i < 0 ∨ (tl.items.length : Int) ≤ i) := by omega
  have hmark : tl.mark_answered i c = (true, ⟨markAt tl.items i.toNat c⟩) := by
    unfold TopicList.mark_answered
    rw [if_neg hguard]
  rw [hmark]
  have hlt : i.toNat < tl.items.length := by omega
  have hsome := List.get?_eq_get hlt
  refine ⟨rfl, ?_, ?_, ?_, markAt_length _ _ _⟩
  · dsimp only
    rw [markAt_get?_eq, hsome]
    simp
  · dsimp only
    rw [markAt_get?_eq, hsome]
    simp
  · dsimp only
    rw [markAt_get?_eq, hsome]
    simp [TopicItem.answered, List.isEmpty_iff, hc]

/-- C2 witness: one-item registry, index `0`, conclusion `"c"`. -/
theorem C2_witness :
    ((⟨[⟨"d", false, none⟩]⟩ : TopicList).mark_answered 0 "c").1 = true ∧
    (((⟨[⟨"d", false, none⟩]⟩ : TopicList).mark_answered 0 "c").2.items.get?
        (0 : Int).toNat).map TopicItem.conclusion = some (some "c") ∧
    (((⟨[⟨"d", false, none⟩]⟩ : TopicList).mark_answered 0 "c").2.items.get?
        (0 : Int).toNat).map TopicItem.asked = some true ∧
    (((⟨[⟨"d", false, none⟩]⟩ : TopicList).mark_answered 0 "c").2.items.get?
        (0 : Int).toNat).map TopicItem.answered = some true ∧
    ((⟨[⟨"d", false, none⟩]⟩ : TopicList).mark_answered 0 "c").2.items.length =
      (⟨[⟨"d", false, none⟩]⟩ : TopicList).items.length :=
  C2_mark_answered ⟨[⟨"d", false, none⟩]⟩ 0 "c" (by decide) (by decide) (by decide)

/-! ### Claim C5: mark_answered on an invalid index -/

/-- C5: for every index outside `[0, length)` (including every negative
index), `mark_answered` returns `false` and leaves the registry state
completely unchanged. -/
theorem C5_mark_answered_invalid (tl : TopicList) (i : Int) (c : String)
    (h : i < 0 ∨ (tl.items.length : Int) ≤ i) :
    tl.mark_answered i c = (false, tl) := by
  unfold TopicList.mark_answered
  rw [if_pos h]

/-- C5 witness: one-item registry, index `-1`. -/
theorem C5_witness :
    (⟨[⟨"d", false, none⟩]⟩ : TopicList).mark_answered (-1) "x" =
      (false, ⟨[⟨"d", false, none⟩]⟩) :=
  C5_mark_answered_invalid ⟨[⟨"d", false, none⟩]⟩ (-1) "x" (Or.inl (by decide))

/-! ### Claim C10: mark_answered with the empty-string conclusion -/

/-- C10: `mark_answered i ""` on an in-range index returns `true` and sets
`asked = true`, but the derived `answered` property stays `false` (the
conclusion `some ""` is falsy), so a subsequent `next_unanswered_topic`
still returns `i` whenever every item before `i` is answered. -/
theorem C10_mark_empty (tl : TopicList) (i : Int)
    (h0 : 0 ≤ i) (hlen : i < (tl.items.length : Int)) :
    (tl.mark_answered i "").1 = true ∧
    ((tl.mark_answered i "").2.items.get? i.toNat).map TopicItem.asked =
      some true ∧
    ((tl.mark_answered i "").2.items.get? i.toNat).map TopicItem.answered =
      some false ∧
    ((∀ j, j < i.toNat →
        ((tl.mark_answered i "").2.items.get? j).map TopicItem.answered =
          some true) →
      next_unanswered_topic (tl.mark_answered i "").2 = i) := by
  have hguard : ¬ (i < 0 ∨ (tl.items.length : Int) ≤ i) := by omega
  have hmark : tl.mark_answered i "" = (true, ⟨markAt tl.items i.toNat ""⟩) := by
    unfold TopicList.mark_answered
    rw [if_neg hguard]
  rw [hmark]
  have hlt : i.toNat < tl.items.length := by omega
  have hsome := List.get?_eq_get hlt
  have hans : ((⟨markAt tl.items i.toNat ""⟩ : TopicList).items.get? i.toNat).map
      TopicItem.answered = some false := by
    dsimp only
    rw [markAt_get?_eq, hsome]
    simp [TopicItem.answered]
  refine ⟨rfl, ?_, hans, ?_⟩
  · dsimp only
    rw [markAt_get?_eq, hsome]
    simp
  · intro hall
    have haux : nextUnansweredAux (markAt tl.items i.toNat "") = some i.toNat :=
      (nextUnansweredAux_eq_some _ _).mpr ⟨hans, hall⟩
    unfold next_unanswered_topic TopicList.next_unanswered_index
    dsimp only
    rw [haux]
    show ((i.toNat : Nat) : Int) = i
    omega

/-- C10 witness: one-item registry, index `0`: after `mark_answered 0 ""`
the item is still not answered. -/
theorem C10_witness :
    (((⟨[⟨"d", false, none⟩]⟩ : TopicList).mark_answered 0 "").2.items.get?
        (0 : Int).toNat).map TopicItem.answered = some false :=
  (C10_mark_empty ⟨[⟨"d", false, none⟩]⟩ 0 (by decide) (by decide)).2.2.1

/-! ### Claim C6: next_unanswered -/

/-- C6: `next_unanswered_topic` returns `-1` exactly when the registry is
empty or every item's derived `answered` property is true (the empty case
is the vacuous instance of the right-hand side); and whenever it returns a
non-negative index `i`, item `i` is not answered and every item before `i`
is answered, i.e. `i` is the smallest unanswered index.  (The operation is
modelled as a pure query: it returns a value and no new state.) -/
theorem C6_next_unanswered (tl : TopicList) :
    (next_unanswered_topic tl = -1 ↔ ∀ it ∈ tl.items, it.answered = true) ∧
    (∀ i : Nat, next_unanswered_topic tl = (i : Int) →
      ((tl.items.get? i).map TopicItem.answered = some false ∧
       ∀ j, j < i → (tl.items.get? j).map TopicItem.answered = some true)) := by
  cases haux : nextUnansweredAux tl.items with
  | none =>
    have hall := (nextUnansweredAux_eq_none tl.items).mp haux
    constructor
    · simp only [next_unanswered_topic, TopicList.next_unanswered_index, haux]
      simpa using hall
    · intro i hi
      simp only [next_unanswered_topic, TopicList.next_unanswered_index, haux] at hi
      exact absurd hi (by omega)
  | some k =>
    have hk := (nextUnansweredAux_eq_some tl.items k).mp haux
    constructor
    · simp only [next_unanswered_topic, TopicList.next_unanswered_index, haux]
      constructor
      · intro hc
        exact absurd hc (by omega)
      · intro hall
        exfalso
        have h0 := hk.1
        cases hg : tl.items.get? k with
        | none =>
          rw [hg] at h0
          simp at h0
        | some it =>
          rw [hg] at h0
          simp only [Option.map_some'] at h0
          have hmem : it ∈ tl.items := List.get?_mem hg
          have := hall it hmem
          rw [this] at h0
          simp at h0
    · intro i hi
      simp only [next_unanswered_topic, TopicList.next_unanswered_index, haux] at hi
      have hki : k = i := by exact_mod_cast hi
      subst hki
      exact hk

/-- C6 witness: a two-item registry with the first item answered:
`next_unanswered_topic` returns `1`, and item `1` is indeed unanswered. -/
theorem C6_witness :
    ((⟨[⟨"a", true, some "x"⟩, ⟨"b", false, none⟩]⟩ : TopicList).items.get?
        1).map TopicItem.answered = some false :=
  ((C6_next_unanswered ⟨[⟨"a", true, some "x"⟩, ⟨"b", false, none⟩]⟩).2 1
    (by decide)).1

/-! ### Claim C7: add returns consecutive indices -/

theorem add_fst (tl : TopicList) (d : String) :
    (TopicList.add tl d).1 = tl.items.length := by
  simp [TopicList.add]

theorem add_snd_items (tl : TopicList) (d : String) :
    (TopicList.add tl d).2.items = tl.items ++ [⟨d, false, none⟩] := rfl

theorem runAdds_fst (tl : TopicList) (ds : List String) :
    (runAdds tl ds).1 = List.range' tl.items.length ds.length := by
  induction ds generalizing tl with
  | nil => rfl
  | cons d ds ih =>
    show (TopicList.add tl d).1 :: (runAdds (TopicList.add tl d).2 ds).1 =
      List.range' tl.items.length (ds.length + 1)
    rw [List.range'_succ, add_fst, ih, add_snd_items]
    simp

/-- C7: starting from the empty registry, a sequence of `N` `add` calls
returns the indices `0, 1, …, N-1` in call order; in general each `add`
call returns the sequence length before the append; and the newly appended
item has `asked = false`, `conclusion = none` and derived
`answered = false`. -/
theorem C7_add (ds : List String) :
    (runAdds TopicList.empty ds).1 = List.range ds.length ∧
    (∀ (tl : TopicList) (d : String),
      (TopicList.add tl d).1 = tl.items.length) ∧
    (∀ (tl : TopicList) (d : String),
      (TopicList.add tl d).2.items.get? tl.items.length =
        some ⟨d, false, none⟩) ∧
    (∀ d : String, TopicItem.answered ⟨d, false, none⟩ = false) := by
  refine ⟨?_, add_fst, ?_, fun d => rfl⟩
  · rw [runAdds_fst]
    simp [TopicList.empty, List.range_eq_range']
  · intro tl d
    rw [add_snd_items, List.get?_append_right (le_refl _)]
    simp

/-! ### Claim C4: conclusions are never cleared -/

/-- C4 counterexample: the claim as stated fails because `mark_answered`
may be called again on an already-answered index and then overwrites the
conclusion.  Reach the state `[⟨"d", asked, conclusion "a"⟩]` from the
empty registry by `add "d"; mark 0 "a"`; applying `mark 0 "b"` changes the
stored conclusion from `"a"` to `"b"`. -/
theorem C4_counterexample :
    ¬ (∀ (tl : TopicList) (i : Nat) (v : String) (op : Op),
        (tl.items.get? i).map TopicItem.conclusion = some (some v) →
        ((TopicList.apply tl op).items.get? i).map TopicItem.conclusion =
          some (some v)) := by
  intro h
  have hc := h (runOps TopicList.empty [Op.add "d", Op.mark 0 "a"]) 0 "a"
    (Op.mark 0 "b") (by decide)
  revert hc
  decide

/-- C4 (amended): once an item's conclusion is non-null, no modeled
operation ever clears it back to null — the conclusion stays some non-null
string — although `mark_answered` on the same index may overwrite it with a
different (non-null) value. -/
theorem C4_conclusion_never_cleared (tl : TopicList) (i : Nat) (v : String)
    (op : Op)
    (h : (tl.items.get? i).map TopicItem.conclusion = some (some v)) :
    ∃ w : String,
      ((TopicList.apply tl op).items.get? i).map TopicItem.conclusion =
        some (some w) := by
  obtain ⟨it, hit, hconc⟩ := Option.map_eq_some'.mp h
  have hlt : i < tl.items.length := by
    by_contra hge
    rw [List.get?_eq_none.mpr (by omega)] at hit
    simp at hit
  cases op with
  | add d =>
    refine ⟨v, ?_⟩
    show ((TopicList.add tl d).2.items.get? i).map TopicItem.conclusion =
      some (some v)
    rw [add_snd_items, List.get?_append hlt]
    exact h
  | mark j c =>
    show ∃ w, (((tl.mark_answered j c).2).items.get? i).map
      TopicItem.conclusion = some (some w)
    unfold TopicList.mark_answered
    by_cases hg : j < 0 ∨ (tl.items.length : Int) ≤ j
    · rw [if_pos hg]
      exact ⟨v, h⟩
    · rw [if_neg hg]
      by_cases hij : i = j.toNat
      · refine ⟨c, ?_⟩
        dsimp only
        rw [← hij, markAt_get?_eq, hit]
        simp
      · refine ⟨v, ?_⟩
        dsimp only
        rw [markAt_get?_ne _ _ _ _ hij]
        exact h
  | nextUnanswered => exact ⟨v, h⟩
  | summary => exact ⟨v, h⟩

/-- C4 witness: a one-item registry whose conclusion is `"a"`; after
re-marking index `0` with `"b"` the conclusion is still non-null. -/
theorem C4_witness :
    ∃ w : String,
      ((TopicList.apply ⟨[⟨"d", true, some "a"⟩]⟩ (Op.mark 0 "b")).items.get?
          0).map TopicItem.conclusion = some (some w) :=
  C4_conclusion_never_cleared ⟨[⟨"d", true, some "a"⟩]⟩ 0 "a" (Op.mark 0 "b")
    (by decide)

/-! ### Claim C8: registry invariants -/

theorem mem_markAt (xs : List TopicItem) (n : Nat) (c : String)
    (it : TopicItem) (h : it ∈ markAt xs n c) : it ∈ xs ∨ it.asked = true := by
  induction xs generalizing n with
  | nil => cases h
  | cons hd rest ih =>
    cases n with
    | zero =>
      rcases List.mem_cons.mp h with heq | hmem
      · right
        rw [heq]
      · left
        exact List.mem_cons_of_mem hd hmem
    | succ m =>
      rcases List.mem_cons.mp h with heq | hmem
      · left
        rw [heq]
        exact List.mem_cons_self hd rest
      · rcases ih m hmem with h1 | h2
        · left
          exact List.mem_cons_of_mem hd h1
        · right
          exact h2

theorem apply_preserves_answered_imp_asked (tl : TopicList) (op : Op)
    (h : ∀ it ∈ tl.items, it.answered = true → it.asked = true) :
    ∀ it ∈ (TopicList.apply tl op).items, it.answered = true →
      it.asked = true := by
  cases op with
  | add d =>
    intro it hmem ha
    rw [show (TopicList.apply tl (Op.add d)).items =
        tl.items ++ [⟨d, false, none⟩] from add_snd_items tl d] at hmem
    rcases List.mem_append.mp hmem with hold | hnew
    · exact h it hold ha
    · rw [List.mem_singleton.mp hnew] at ha
      simp [TopicItem.answered] at ha
  | mark j c =>
    intro it hmem ha
    show it.asked = true
    have hmem' : it ∈ ((tl.mark_answered j c).2).items := hmem
    unfold TopicList.mark_answered at hmem'
    by_cases hg : j < 0 ∨ (tl.items.length : Int) ≤ j
    · rw [if_pos hg] at hmem'
      exact h it hmem' ha
    · rw [if_neg hg] at hmem'
      rcases mem_markAt _ _ _ _ hmem' with hold | hask
      · exact h it hold ha
      · exact hask
  | nextUnanswered => exact h
  | summary => exact h

theorem runOps_answered_imp_asked (ops : List Op) :
    ∀ it ∈ (runOps TopicList.empty ops).items, it.answered = true →
      it.asked = true := by
  suffices hgen : ∀ tl : TopicList,
      (∀ it ∈ tl.items, it.answered = true → it.asked = true) →
      ∀ it ∈ (runOps tl ops).items, it.answered = true → it.asked = true by
    refine hgen TopicList.empty ?_
    intro it hmem
    cases hmem
  induction ops with
  | nil =>
    intro tl h
    exact h
  | cons op ops ih =>
    intro tl h
    exact ih _ (apply_preserves_answered_imp_asked tl op h)

theorem apply_monotone (tl : TopicList) (op : Op) (i : Nat) :
    tl.items.length ≤ (TopicList.apply tl op).items.length ∧
    (i < tl.items.length →
      ((TopicList.apply tl op).items.get? i).map TopicItem.description =
        (tl.items.get? i).map TopicItem.description) ∧
    ((tl.items.get? i).map TopicItem.asked = some true →
      ((TopicList.apply tl op).items.get? i).map TopicItem.asked =
        some true) := by
  cases op with
  | add d =>
    refine ⟨?_, ?_, ?_⟩
    · rw [show (TopicList.apply tl (Op.add d)).items =
          tl.items ++ [⟨d, false, none⟩] from add_snd_items tl d]
      simp
    · intro hlt
      rw [show (TopicList.apply tl (Op.add d)).items =
          tl.items ++ [⟨d, false, none⟩] from add_snd_items tl d]
      rw [List.get?_append hlt]
    · intro hask
      obtain ⟨it, hit, _⟩ := Option.map_eq_some'.mp hask
      have hlt : i < tl.items.length := by
        by_contra hge
        rw [List.get?_eq_none.mpr (by omega)] at hit
        simp at hit
      rw [show (TopicList.apply tl (Op.add d)).items =
          tl.items ++ [⟨d, false, none⟩] from add_snd_items tl d]
      rw [List.get?_append hlt]
      exact hask
  | mark j c =>
    by_cases hg : j < 0 ∨ (tl.items.length : Int) ≤ j
    · have happly : (TopicList.apply tl (Op.mark j c)).items = tl.items := by
        show ((tl.mark_answered j c).2).items = tl.items
        unfold TopicList.mark_answered
        rw [if_pos hg]
      rw [happly]
      exact ⟨le_refl _, fun _ => rfl, fun hask => hask⟩
    · have happly : (TopicList.apply tl (Op.mark j c)).items =
          markAt tl.items j.toNat c := by
        show ((tl.mark_answered j c).2).items = markAt tl.items j.toNat c
        unfold TopicList.mark_answered
        rw [if_neg hg]
      rw [happly]
      refine ⟨by rw [markAt_length], ?_, ?_⟩
      · intro hlt
        by_cases hij : i = j.toNat
        · rw [← hij, markAt_get?_eq]
          cases hgi : tl.items.get? i with
          | none => rfl
          | some it => simp
        · rw [markAt_get?_ne _ _ _ _ hij]
      · intro hask
        by_cases hij : i = j.toNat
        · rw [← hij, markAt_get?_eq]
          obtain ⟨it, hit, _⟩ := Option.map_eq_some'.mp hask
          rw [hit]
          simp
        · rw [markAt_get?_ne _ _ _ _ hij]
          exact hask
  | nextUnanswered => exact ⟨le_refl _, fun _ => rfl, fun hask => hask⟩
  | summary => exact ⟨le_refl _, fun _ => rfl, fun hask => hask⟩

/-- C8: in every state reachable from the empty registry by modeled
operations, `answered` implies `asked`; and every single operation is
monotone: it never shrinks the item sequence, never changes the
`description` of an existing item (items are never removed or moved), and
never resets an item's `asked` flag from `true` to `false`. -/
theorem C8_invariants :
    (∀ ops : List Op, ∀ it ∈ (runOps TopicList.empty ops).items,
        it.answered = true → it.asked = true) ∧
    (∀ (tl : TopicList) (op : Op) (i : Nat),
        tl.items.length ≤ (TopicList.apply tl op).items.length ∧
        (i < tl.items.length →
          ((TopicList.apply tl op).items.get? i).map TopicItem.description =
            (tl.items.get? i).map TopicItem.description) ∧
        ((tl.items.get? i).map TopicItem.asked = some true →
          ((TopicList.apply tl op).items.get? i).map TopicItem.asked =
            some true)) :=
  ⟨runOps_answered_imp_asked, apply_monotone⟩

/-- C8 witness: after `add "d"; mark 0 "c"` the (answered) item at index
`0` is indeed asked. -/
theorem C8_witness :
    TopicItem.asked ⟨"d", true, some "c"⟩ = true :=
  C8_invariants.1 [Op.add "d", Op.mark 0 "c"] ⟨"d", true, some "c"⟩
    (by decide) (by decide)

end Dorsz
